import Mathlib

/-!
# Verification of the policy-admission dispatch engine

A shallow embedding of the policy-evaluation pipeline of the
`policy-admission` controller: the dispatch engine of `pkg/server`
(`handleAdmissionReview`, `admit`, `getResourceForReview`, `New`), the
authorizer factory of `pkg/authorize` (`newAuthorizer`) and the CLI
authorizer-string parsing (`configureAuthorizer`).

Side effects that the theorems need to observe (metric increments, latency
observations, the `Admit` invocations themselves, orchestrator events) are
recorded into an explicit event trace.  Collaborator functions the engine
calls but whose bodies live outside the pipeline (JSON decoding of the raw
review object, the per-module `NewFromFile` constructors, the HTTP-server
constructor) are passed in as parameters, so the embedded control flow is a
function of the same inputs the Go code branches on.
-/

namespace PolicyAdmission

/-- The type of a field-level violation, mirroring
`k8s.io/apimachinery/pkg/util/validation/field` error types.  The dispatch
engine only discriminates on `internal`. -/
inductive ErrorType where
  | internal
  | invalid
  | forbidden
  | notSupported
  | required
  | notFound
  | duplicate
  deriving DecidableEq, Repr

/-- A single violation as returned by an authorizer's `Admit`:
`field.Error` with its `Type`, `Field`, `BadValue` and `Detail`.  `badValue`
is the `%v` rendering of the offending value. -/
structure FieldError where
  type : ErrorType
  field : String
  badValue : String
  detail : String
  deriving DecidableEq, Repr

/-- `api.Filter`: which kind the authorizer listens to, which namespaces it
skips and whether internal errors should be tolerated. -/
structure AuthorizerFilter where
  kind : String
  ignoreNamespaces : List String
  ignoreOnFailure : Bool
  deriving DecidableEq, Repr

/-- The metadata of the decoded review object that the dispatch engine
touches (`metav1.Object`): `GetName`, `GetGenerateName`,
`GetNamespace`/`SetNamespace`.  The field `ns` models the object's
namespace. -/
structure KubeObject where
  name : String
  generateName : String
  ns : String
  deriving DecidableEq, Repr

/-- An authorizer (`api.Authorize`): a `Name`, a filter (`FilterOn`) and an
`Admit` operation.  `Admit` is deterministic in the object for a fixed
client and cache, so it is embedded as a function of the object. -/
structure Provider where
  name : String
  filterOn : AuthorizerFilter
  admitOp : KubeObject → List FieldError

/-- The raw bytes of `review.Request.Object`, represented by their decode
outcome: `json.Unmarshal` of the bytes into the kind-specific structure is
a function of the bytes and the target kind, returning the decoded object
metadata or a failure. -/
structure RawExtension where
  decode : String → Option KubeObject

/-- The part of `admission.AdmissionRequest` the engine reads:
`Kind.Kind`, `Namespace` and `Object`. -/
structure AdmissionRequest where
  kind : String
  ns : String
  object : RawExtension

/-- The review envelope; the engine only reads `Request`. -/
structure AdmissionReview where
  request : AdmissionRequest

/-- The `admissionResult` of `handleAdmissionReview`: whether the object is
allowed, the reviewed object and the status message. -/
structure AdmissionResult where
  allowed : Bool
  object : KubeObject
  message : String
  deriving DecidableEq, Repr

/-- `metav1.Status` as populated on denial. -/
structure Status where
  code : Nat
  message : String
  reason : String
  status : String
  deriving DecidableEq, Repr

/-- `admission.AdmissionResponse`: `Allowed` plus the optional `Result`
status (absent on acceptance). -/
structure AdmissionResponse where
  allowed : Bool
  result : Option Status
  deriving DecidableEq, Repr

/-- `server.Config`: the fields the embedded code paths read. -/
structure Config where
  enableEvents : Bool
  enableLogging : Bool
  listen : String
  ns : String
  tlsCert : String
  tlsKey : String
  enableMetrics : Bool

/-- The errors `handleAdmissionReview` can return: `ErrNotSupported` for an
unsupported kind, or the `json.Unmarshal` failure. -/
inductive ReviewError where
  | notSupported
  | decodeFailure
  deriving DecidableEq, Repr

/-- Observable side effects of one request, in program order:
* `admitCall i n o` — the `Admit` of the provider at registration index `i`
  named `n` was invoked with object `o`;
* `latencyObserve n` — `admissionAuthorizerLatencyMetric` observed for `n`;
* `actionInc n a` — `admissionAuthorizerActionMetric.WithLabelValues(n, a).Inc()`;
* `actionTouch n a` — `admissionAuthorizerActionMetric.WithLabelValues(n, a)`
  **without** a call to `Inc()` (the accept path of the source);
* `totalInc a` — `admissionTotalMetric.WithLabelValues(a).Inc()`;
* `errorInc` — `admissionErrorMetric.Inc()`;
* `podDeniedEvent m` — `createPodDeniedEvent` with message `m`. -/
inductive TraceEvent where
  | admitCall (idx : Nat) (providerName : String) (obj : KubeObject)
  | latencyObserve (providerName : String)
  | actionInc (providerName : String) (action : String)
  | actionTouch (providerName : String) (action : String)
  | totalInc (action : String)
  | errorInc
  | podDeniedEvent (message : String)
  deriving DecidableEq, Repr

/-- Modelled from the spec: `utils.Contained`, membership of a value in a
list of names (the spec reads "whose *IgnoreNamespaces* does not contain
the review's *Namespace*"). -/
def contained (value : String) (items : List String) : Bool :=
  items.contains value

/-- Modelled from the spec: the kind constant `api.FilterIngresses`
("Supported object kinds. Pod, Namespace, Ingress, Service"). -/
def FilterIngresses : String := "Ingress"

/-- Modelled from the spec: the kind constant `api.FilterNamespace`. -/
def FilterNamespace : String := "Namespace"

/-- Modelled from the spec: the kind constant `api.FilterPods`. -/
def FilterPods : String := "Pod"

/-- Modelled from the spec: the kind constant `api.FilterServices`. -/
def FilterServices : String := "Service"

/-- `getResourceForReview`: switch on the review kind, allocating the
kind-specific structure, then unmarshal `review.Request.Object.Raw` into
it; an unrecognised kind yields `ErrNotSupported`. -/
def getResourceForReview (kind : String) (review : AdmissionReview) :
    Except ReviewError KubeObject :=
  if kind = FilterIngresses ∨ kind = FilterNamespace ∨
      kind = FilterPods ∨ kind = FilterServices then
    match review.request.object.decode kind with
    | some obj => Except.ok obj
    | none => Except.error ReviewError.decodeFailure
  else
    Except.error ReviewError.notSupported

/-- The `skipme` flag loop of `handleAdmissionReview`: scan the violations
and raise the flag on a violation of type `Internal` when the provider's
filter has `IgnoreOnFailure` set. -/
def computeSkipme (ignoreOnFailure : Bool) (errs : List FieldError) : Bool :=
  errs.foldl
    (fun skipme x =>
      skipme || (x.type == ErrorType.internal && ignoreOnFailure))
    false

/-- The message fragment for one violation:
`fmt.Sprintf("%s=%v : %s", x.Field, x.BadValue, x.Detail)`. -/
def violationReason (x : FieldError) : String :=
  x.field ++ "=" ++ x.badValue ++ " : " ++ x.detail

/-- The provider loop of `handleAdmissionReview`, iterating the registered
providers in order at registration indices `i, i+1, …`.  Each iteration:
skip on kind mismatch; skip on ignored namespace; otherwise force the
object's namespace to the review namespace, invoke `Admit` (recorded in the
trace together with the latency observation), and act on the violations:
non-empty ⇒ increment the deny counter, then either skip (`skipme`) or stop
with the joined denial message; empty ⇒ touch the accept counter label
(the source does not call `Inc()` here) and continue. -/
def reviewLoop (reviewNs kind : String) :
    Nat → List Provider → KubeObject → List TraceEvent × AdmissionResult
  | _, [], obj => ([], { allowed := true, object := obj, message := "" })
  | i, provider :: rest, obj =>
    if provider.filterOn.kind ≠ kind then
      reviewLoop reviewNs kind (i + 1) rest obj
    else if contained reviewNs provider.filterOn.ignoreNamespaces then
      reviewLoop reviewNs kind (i + 1) rest obj
    else
      let obj2 : KubeObject := { obj with ns := reviewNs }
      let errs := provider.admitOp obj2
      let callEvents : List TraceEvent :=
        [TraceEvent.admitCall i provider.name obj2,
         TraceEvent.latencyObserve provider.name]
      if errs.length > 0 then
        if computeSkipme provider.filterOn.ignoreOnFailure errs then
          let r := reviewLoop reviewNs kind (i + 1) rest obj2
          (callEvents ++ [TraceEvent.actionInc provider.name "deny"] ++ r.1,
           r.2)
        else
          (callEvents ++ [TraceEvent.actionInc provider.name "deny"],
           { allowed := false, object := obj2,
             message := String.intercalate "," (errs.map violationReason) })
      else
        let r := reviewLoop reviewNs kind (i + 1) rest obj2
        (callEvents ++ [TraceEvent.actionTouch provider.name "accept"] ++ r.1,
         r.2)

/-- `handleAdmissionReview`: decode the review object for the review kind,
then run the provider loop from registration index 0. -/
def handleAdmissionReview (providers : List Provider)
    (review : AdmissionReview) :
    List TraceEvent × Except ReviewError AdmissionResult :=
  let kind := review.request.kind
  match getResourceForReview kind review with
  | Except.error e => ([], Except.error e)
  | Except.ok object =>
    let r := reviewLoop review.request.ns kind 0 providers object
    (r.1, Except.ok r.2)

/-- `admit`: run `handleAdmissionReview`; on error increment the error
metric and propagate; on a denial increment the `deny` total, build the
403/Forbidden response and (when enabled) create the denial event; on
acceptance increment the `accept` total and answer `Allowed` with no
status. -/
def admitReview (config : Config) (providers : List Provider)
    (review : AdmissionReview) :
    List TraceEvent × Except ReviewError AdmissionResponse :=
  match handleAdmissionReview providers review with
  | (evs, Except.error e) =>
    (evs ++ [TraceEvent.errorInc], Except.error e)
  | (evs, Except.ok result) =>
    if result.allowed = false then
      let evs := evs ++ [TraceEvent.totalInc "deny"]
      let evs :=
        if config.enableEvents then
          evs ++ [TraceEvent.podDeniedEvent result.message]
        else evs
      (evs,
       Except.ok
         { allowed := false,
           result := some
             { code := 403, message := result.message,
               reason := "Forbidden", status := "Failure" } })
    else
      (evs ++ [TraceEvent.totalInc "accept"],
       Except.ok { allowed := true, result := none })

/-- An opaque-to-the-core handle for the HTTP server built by
`utils.NewHTTPServer`; only its construction success matters here. -/
structure HTTPServer where
  listen : String
  deriving DecidableEq, Repr

/-- The `Admission` controller state assembled by `server.New`. -/
structure Admission where
  config : Config
  providers : List Provider
  cacheDefaultExpirySeconds : Nat
  cacheSweepSeconds : Nat
  server : HTTPServer

/-- `server.New`: reject an empty provider list, otherwise build the
controller with the shared resource cache (1-minute default expiry,
5-minute sweep) and the HTTP server.  `utils.NewHTTPServer` lives outside
the pipeline and is passed in as `newHTTPServer`. -/
def serverNew (config : Config) (providers : List Provider)
    (newHTTPServer : String → String → String → Except String HTTPServer) :
    Except String Admission :=
  if providers.length ≤ 0 then
    Except.error "no authorizers defined"
  else
    match newHTTPServer config.listen config.tlsCert config.tlsKey with
    | Except.error e => Except.error e
    | Except.ok s =>
      Except.ok
        { config := config, providers := providers,
          cacheDefaultExpirySeconds := 60, cacheSweepSeconds := 300,
          server := s }

/-- Modelled from the spec: the eight in-tree module `Name` constants
(`domains.Name`, `images.Name`, `imagelist.Name`, `kubecertmanager.Name`,
`namespaces.Name`, `securitycontext.Name`, `services.Name`,
`tolerations.Name`), listed in §4.2.1 of the specification. -/
def moduleNames : List String :=
  ["domains", "images", "imagelist", "kubecertmanager",
   "namespaces", "securitycontext", "services", "tolerations"]

/-- `authorize.newAuthorizer`: switch on the module name and construct via
the module's `NewFromFile`; an unknown name is an error.  The per-module
`NewFromFile` bodies live outside the pipeline and are passed in as
`newFromFile` (module name, config path). -/
def newAuthorizer
    (newFromFile : String → String → Except String Provider)
    (name path : String) : Except String Provider :=
  if name = "domains" then newFromFile "domains" path
  else if name = "images" then newFromFile "images" path
  else if name = "imagelist" then newFromFile "imagelist" path
  else if name = "kubecertmanager" then newFromFile "kubecertmanager" path
  else if name = "namespaces" then newFromFile "namespaces" path
  else if name = "securitycontext" then newFromFile "securitycontext" path
  else if name = "services" then newFromFile "services" path
  else if name = "tolerations" then newFromFile "tolerations" path
  else Except.error "unsupported authorizer"

/-- Modelled from the spec: `authorize.newWrapper`, the reloadable wrapper.
Per §4.4 it wraps the freshly constructed authorizer and delegates `Name`,
`FilterOn` and `Admit` to the current instance, so behaviourally it is the
authorizer built by `newAuthorizer` from the same name and path. -/
def newWrapper
    (newFromFile : String → String → Except String Provider)
    (name path : String) : Except String Provider :=
  newAuthorizer newFromFile name path

/-- `authorize.New`: build a plain authorizer, or the reloadable wrapper
when `reloadable` is set. -/
def authorizeNew
    (newFromFile : String → String → Except String Provider)
    (name path : String) (reloadable : Bool) : Except String Provider :=
  if !reloadable then newAuthorizer newFromFile name path
  else newWrapper newFromFile name path

/-- Go's `strings.Split` for a one-character separator, on the character
list of the string: splitting the empty string gives one empty field, and
each separator occurrence starts a new field. -/
def splitOnChar (sep : Char) : List Char → List (List Char)
  | [] => [[]]
  | c :: rest =>
    match splitOnChar sep rest with
    | [] => [[]]
    | g :: gs => if c = sep then [] :: g :: gs else (c :: g) :: gs

/-- `configureAuthorizer` of the CLI: split the flag value on `'='`; more
than two fields is an error; the first field is the provider name and the
second, when present, its config path (otherwise the empty path); then
construct via `authorize.New` with `reloadable = true`. -/
def configureAuthorizer
    (newFromFile : String → String → Except String Provider)
    (cfg : String) : Except String Provider :=
  let items := splitOnChar '=' cfg.data
  if items.length > 2 then
    Except.error "invalid authorizer config, should be name:config_path"
  else
    let providerName := String.mk (items.headD [])
    let providerConfig :=
      if items.length = 2 then String.mk (items.getD 1 []) else ""
    authorizeNew newFromFile providerName providerConfig true

/-- Recogniser for an `Admit` invocation of the provider at registration
index `j` in the event trace. -/
def isAdmitCallIdx (j : Nat) : TraceEvent → Bool
  | TraceEvent.admitCall k _ _ => k == j
  | _ => false

/-- How many times the provider at registration index `j` had its `Admit`
invoked in the trace. -/
def admitCount (j : Nat) (evs : List TraceEvent) : Nat :=
  (evs.filter (isAdmitCallIdx j)).length

/-- A provider at the head of the loop "passes" (the loop moves on to the
next provider) when it fails the kind filter, is ignored on the review
namespace, returns no violations, or has all its violations skipped by the
`skipme` flag. -/
def passes (reviewNs kind : String) (obj : KubeObject) (p : Provider) : Bool :=
  !(p.filterOn.kind == kind) ||
  contained reviewNs p.filterOn.ignoreNamespaces ||
  (p.admitOp { obj with ns := reviewNs }).isEmpty ||
  computeSkipme p.filterOn.ignoreOnFailure (p.admitOp { obj with ns := reviewNs })

/-! ### Concrete sample inputs

Fixed inputs used to exhibit concrete runs of the pipeline. -/

/-- A decoded pod whose embedded bytes carry the namespace `embedded`,
different from the review namespace. -/
def objRaw : KubeObject :=
  { name := "app", generateName := "app-", ns := "embedded" }

/-- A pod review in namespace `default` whose raw object decodes to
`objRaw` for every target kind. -/
def sampleReview : AdmissionReview :=
  { request :=
      { kind := "Pod", ns := "default",
        object := { decode := fun _ => some objRaw } } }

/-- A review with the unsupported kind `DaemonSet`. -/
def unsupportedReview : AdmissionReview :=
  { request :=
      { kind := "DaemonSet", ns := "default",
        object := { decode := fun _ => some objRaw } } }

/-- A pod review whose raw object fails to decode. -/
def badPayloadReview : AdmissionReview :=
  { request :=
      { kind := "Pod", ns := "default",
        object := { decode := fun _ => none } } }

/-- An `Internal` violation, as produced for a transient external
failure. -/
def errInternal : FieldError :=
  { type := ErrorType.internal, field := "spec", badValue := "x",
    detail := "api down" }

/-- A genuine policy violation. -/
def errPriv : FieldError :=
  { type := ErrorType.forbidden,
    field := "spec.containers[0].securityContext.privileged",
    badValue := "true", detail := "privileged containers denied" }

/-- A pod authorizer with `IgnoreOnFailure` that reports a **mixed** list:
one `Internal` violation and one genuine policy violation. -/
def pMixed : Provider :=
  { name := "imagelist",
    filterOn := { kind := "Pod", ignoreNamespaces := [], ignoreOnFailure := true },
    admitOp := fun _ => [errInternal, errPriv] }

/-- A pod authorizer with `IgnoreOnFailure` that reports a single
`Internal` violation. -/
def pInternal : Provider :=
  { name := "imagelist",
    filterOn := { kind := "Pod", ignoreNamespaces := [], ignoreOnFailure := true },
    admitOp := fun _ => [errInternal] }

/-- A pod authorizer that always denies with a genuine violation. -/
def pDeny : Provider :=
  { name := "images",
    filterOn := { kind := "Pod", ignoreNamespaces := [], ignoreOnFailure := false },
    admitOp := fun _ => [errPriv] }

/-- A pod authorizer that always accepts (returns no violations). -/
def pEmpty : Provider :=
  { name := "securitycontext",
    filterOn := { kind := "Pod", ignoreNamespaces := [], ignoreOnFailure := false },
    admitOp := fun _ => [] }

/-- A service authorizer, used against pod reviews to exercise the kind
filter. -/
def pService : Provider :=
  { name := "services",
    filterOn := { kind := "Service", ignoreNamespaces := [], ignoreOnFailure := false },
    admitOp := fun _ => [errPriv] }

/-- A pod authorizer that ignores the `default` namespace. -/
def pIgnoringDefault : Provider :=
  { name := "tolerations",
    filterOn := { kind := "Pod", ignoreNamespaces := ["default", "kube-system"],
                  ignoreOnFailure := false },
    admitOp := fun _ => [errPriv] }

/-- A sample server configuration. -/
def sampleConfig : Config :=
  { enableEvents := false, enableLogging := false, listen := ":8443",
    ns := "kube-admission", tlsCert := "tls.crt", tlsKey := "tls.key",
    enableMetrics := true }

/-- A stand-in for the per-module `NewFromFile` constructors: every module
constructs successfully. -/
def nfDummy : String → String → Except String Provider :=
  fun _ _ => Except.ok pEmpty

/-! ### Unfolding lemmas for the provider loop -/

theorem reviewLoop_nil (ns kind : String) (i : Nat) (obj : KubeObject) :
    reviewLoop ns kind i [] obj =
      ([], { allowed := true, object := obj, message := "" }) := rfl

theorem reviewLoop_cons_mismatch (ns kind : String) (i : Nat) (p : Provider)
    (ps : List Provider) (obj : KubeObject) (hk : p.filterOn.kind ≠ kind) :
    reviewLoop ns kind i (p :: ps) obj = reviewLoop ns kind (i + 1) ps obj := by
  simp [reviewLoop, hk]

theorem reviewLoop_cons_ignored (ns kind : String) (i : Nat) (p : Provider)
    (ps : List Provider) (obj : KubeObject) (hk : p.filterOn.kind = kind)
    (hn : contained ns p.filterOn.ignoreNamespaces = true) :
    reviewLoop ns kind i (p :: ps) obj = reviewLoop ns kind (i + 1) ps obj := by
  simp [reviewLoop, hk, hn]

theorem reviewLoop_cons_deny (ns kind : String) (i : Nat) (p : Provider)
    (ps : List Provider) (obj : KubeObject) (hk : p.filterOn.kind = kind)
    (hn : contained ns p.filterOn.ignoreNamespaces = false)
    (he : (p.admitOp { obj with ns := ns }).length > 0)
    (hs : computeSkipme p.filterOn.ignoreOnFailure
            (p.admitOp { obj with ns := ns }) = false) :
    reviewLoop ns kind i (p :: ps) obj =
      ([TraceEvent.admitCall i p.name { obj with ns := ns },
        TraceEvent.latencyObserve p.name,
        TraceEvent.actionInc p.name "deny"],
       { allowed := false, object := { obj with ns := ns },
         message := String.intercalate ","
           ((p.admitOp { obj with ns := ns }).map violationReason) }) := by
  simp [reviewLoop, hk, hn, he, hs]

theorem reviewLoop_cons_skip (ns kind : String) (i : Nat) (p : Provider)
    (ps : List Provider) (obj : KubeObject) (hk : p.filterOn.kind = kind)
    (hn : contained ns p.filterOn.ignoreNamespaces = false)
    (he : (p.admitOp { obj with ns := ns }).length > 0)
    (hs : computeSkipme p.filterOn.ignoreOnFailure
            (p.admitOp { obj with ns := ns }) = true) :
    reviewLoop ns kind i (p :: ps) obj =
      ([TraceEvent.admitCall i p.name { obj with ns := ns },
        TraceEvent.latencyObserve p.name,
        TraceEvent.actionInc p.name "deny"] ++
         (reviewLoop ns kind (i + 1) ps { obj with ns := ns }).1,
       (reviewLoop ns kind (i + 1) ps { obj with ns := ns }).2) := by
  simp [reviewLoop, hk, hn, he, hs]

theorem reviewLoop_cons_accept (ns kind : String) (i : Nat) (p : Provider)
    (ps : List Provider) (obj : KubeObject) (hk : p.filterOn.kind = kind)
    (hn : contained ns p.filterOn.ignoreNamespaces = false)
    (he : p.admitOp { obj with ns := ns } = []) :
    reviewLoop ns kind i (p :: ps) obj =
      ([TraceEvent.admitCall i p.name { obj with ns := ns },
        TraceEvent.latencyObserve p.name,
        TraceEvent.actionTouch p.name "accept"] ++
         (reviewLoop ns kind (i + 1) ps { obj with ns := ns }).1,
       (reviewLoop ns kind (i + 1) ps { obj with ns := ns }).2) := by
  simp [reviewLoop, hk, hn, he]

/-! ### Trace analysis -/

/-- Every `Admit` invocation recorded by the provider loop belongs to a
registered provider that survives both filters, carries that provider's
name and registration index, and receives the decoded object with its
namespace forced to the review namespace. -/
theorem reviewLoop_admitCall_characterise (ns kind : String) :
    ∀ (ps : List Provider) (i : Nat) (obj : KubeObject) (j : Nat)
      (n : String) (o : KubeObject),
      TraceEvent.admitCall j n o ∈ (reviewLoop ns kind i ps obj).1 →
      ∃ k p, ps[k]? = some p ∧ j = i + k ∧ n = p.name ∧
        p.filterOn.kind = kind ∧
        contained ns p.filterOn.ignoreNamespaces = false ∧
        o = { obj with ns := ns } := by
  intro ps
  induction ps with
  | nil =>
    intro i obj j n o h
    simp [reviewLoop_nil] at h
  | cons p rest ih =>
    intro i obj j n o h
    by_cases hk : p.filterOn.kind = kind
    · cases hn : contained ns p.filterOn.ignoreNamespaces with
      | true =>
        rw [reviewLoop_cons_ignored ns kind i p rest obj hk hn] at h
        obtain ⟨k, q, hq, hj, hrest⟩ := ih (i + 1) obj j n o h
        exact ⟨k + 1, q, by simpa using hq, by omega, hrest⟩
      | false =>
        cases he : p.admitOp { obj with ns := ns } with
        | nil =>
          rw [reviewLoop_cons_accept ns kind i p rest obj hk hn he] at h
          simp only [List.cons_append, List.nil_append, List.mem_cons] at h
          rcases h with h | h | h | h
          · obtain ⟨hj, hname, ho⟩ := TraceEvent.admitCall.inj h
            exact ⟨0, p, by simp, by omega, hname, hk, hn, ho⟩
          · exact absurd h (by simp)
          · exact absurd h (by simp)
          · obtain ⟨k, q, hq, hj, hrest⟩ :=
              ih (i + 1) { obj with ns := ns } j n o h
            exact ⟨k + 1, q, by simpa using hq, by omega, hrest⟩
        | cons e es =>
          have hlen : (p.admitOp { obj with ns := ns }).length > 0 := by
            simp [he]
          cases hs : computeSkipme p.filterOn.ignoreOnFailure
              (p.admitOp { obj with ns := ns }) with
          | true =>
            rw [reviewLoop_cons_skip ns kind i p rest obj hk hn hlen hs] at h
            simp only [List.cons_append, List.nil_append, List.mem_cons] at h
            rcases h with h | h | h | h
            · obtain ⟨hj, hname, ho⟩ := TraceEvent.admitCall.inj h
              exact ⟨0, p, by simp, by omega, hname, hk, hn, ho⟩
            · exact absurd h (by simp)
            · exact absurd h (by simp)
            · obtain ⟨k, q, hq, hj, hrest⟩ :=
                ih (i + 1) { obj with ns := ns } j n o h
              exact ⟨k + 1, q, by simpa using hq, by omega, hrest⟩
          | false =>
            rw [reviewLoop_cons_deny ns kind i p rest obj hk hn hlen hs] at h
            simp only [List.mem_cons, List.not_mem_nil] at h
            rcases h with h | h | h | h
            · obtain ⟨hj, hname, ho⟩ := TraceEvent.admitCall.inj h
              exact ⟨0, p, by simp, by omega, hname, hk, hn, ho⟩
            · exact absurd h (by simp)
            · exact absurd h (by simp)
            · exact absurd h (by simp)
    · rw [reviewLoop_cons_mismatch ns kind i p rest obj hk] at h
      obtain ⟨k, q, hq, hj, hrest⟩ := ih (i + 1) obj j n o h
      exact ⟨k + 1, q, by simpa using hq, by omega, hrest⟩

theorem admitCount_append (j : Nat) (a b : List TraceEvent) :
    admitCount j (a ++ b) = admitCount j a + admitCount j b := by
  simp [admitCount, List.filter_append]

theorem admitCount_cons_call (j i : Nat) (n : String) (o : KubeObject)
    (t : List TraceEvent) :
    admitCount j (TraceEvent.admitCall i n o :: t) =
      (if i = j then 1 else 0) + admitCount j t := by
  by_cases h : i = j <;> simp [admitCount, isAdmitCallIdx, h, Nat.add_comm]

theorem admitCount_cons_other (j : Nat) (e : TraceEvent) (t : List TraceEvent)
    (h : isAdmitCallIdx j e = false) :
    admitCount j (e :: t) = admitCount j t := by
  simp [admitCount, h]

/-- Registration indices below the loop's starting index never occur in its
trace. -/
theorem admitCount_eq_zero_of_lt (ns kind : String) (ps : List Provider)
    (i j : Nat) (obj : KubeObject) (h : j < i) :
    admitCount j (reviewLoop ns kind i ps obj).1 = 0 := by
  rw [admitCount, List.length_eq_zero, List.filter_eq_nil_iff]
  intro e he
  cases e <;> simp [isAdmitCallIdx]
  case admitCall k n o =>
    obtain ⟨m, q, _, hj, _⟩ :=
      reviewLoop_admitCall_characterise ns kind ps i obj k n o he
    omega

/-- A trace with no `Admit` invocation at index `j` counts zero such
invocations. -/
theorem admitCount_eq_zero_of_forall (j : Nat) (evs : List TraceEvent)
    (h : ∀ n o, TraceEvent.admitCall j n o ∉ evs) : admitCount j evs = 0 := by
  rw [admitCount, List.length_eq_zero, List.filter_eq_nil_iff]
  intro e he
  cases e <;> simp [isAdmitCallIdx]
  case admitCall k n o =>
    intro hkj
    subst hkj
    exact h n o he

/-- Each registered provider has its `Admit` invoked at most once per
review. -/
theorem reviewLoop_admitCount_le_one (ns kind : String) :
    ∀ (ps : List Provider) (i : Nat) (obj : KubeObject) (j : Nat),
      admitCount j (reviewLoop ns kind i ps obj).1 ≤ 1 := by
  intro ps
  induction ps with
  | nil => intro i obj j; simp [reviewLoop_nil, admitCount]
  | cons p rest ih =>
    intro i obj j
    by_cases hk : p.filterOn.kind = kind
    · cases hn : contained ns p.filterOn.ignoreNamespaces with
      | true =>
        rw [reviewLoop_cons_ignored ns kind i p rest obj hk hn]
        exact ih (i + 1) obj j
      | false =>
        cases he : p.admitOp { obj with ns := ns } with
        | nil =>
          rw [reviewLoop_cons_accept ns kind i p rest obj hk hn he,
            admitCount_append]
          by_cases hj : i = j
          · rw [admitCount_eq_zero_of_lt ns kind rest (i + 1) j _ (by omega)]
            simp [admitCount, isAdmitCallIdx, hj]
          · have h1 : admitCount j
                [TraceEvent.admitCall i p.name { obj with ns := ns },
                 TraceEvent.latencyObserve p.name,
                 TraceEvent.actionTouch p.name "accept"] = 0 := by
              simp [admitCount, isAdmitCallIdx, hj]
            rw [h1]
            simpa using ih (i + 1) { obj with ns := ns } j
        | cons e es =>
          have hlen : (p.admitOp { obj with ns := ns }).length > 0 := by
            simp [he]
          cases hs : computeSkipme p.filterOn.ignoreOnFailure
              (p.admitOp { obj with ns := ns }) with
          | true =>
            rw [reviewLoop_cons_skip ns kind i p rest obj hk hn hlen hs,
              admitCount_append]
            by_cases hj : i = j
            · rw [admitCount_eq_zero_of_lt ns kind rest (i + 1) j _ (by omega)]
              simp [admitCount, isAdmitCallIdx, hj]
            · have h1 : admitCount j
                  [TraceEvent.admitCall i p.name { obj with ns := ns },
                   TraceEvent.latencyObserve p.name,
                   TraceEvent.actionInc p.name "deny"] = 0 := by
                simp [admitCount, isAdmitCallIdx, hj]
              rw [h1]
              simpa using ih (i + 1) { obj with ns := ns } j
          | false =>
            rw [reviewLoop_cons_deny ns kind i p rest obj hk hn hlen hs]
            by_cases hj : i = j
            · simp [admitCount, isAdmitCallIdx, hj]
            · simp [admitCount, isAdmitCallIdx, hj]
    · rw [reviewLoop_cons_mismatch ns kind i p rest obj hk]
      exact ih (i + 1) obj j

/-- A denied loop result always originates from a registered provider: its
`Admit` was invoked on the namespace-forced object, and the denial message
is built from exactly that provider's violation list. -/
theorem reviewLoop_denied_provenance (ns kind : String) :
    ∀ (ps : List Provider) (i : Nat) (obj : KubeObject),
      (reviewLoop ns kind i ps obj).2.allowed = false →
      ∃ k p, ps[k]? = some p ∧
        TraceEvent.admitCall (i + k) p.name { obj with ns := ns } ∈
          (reviewLoop ns kind i ps obj).1 ∧
        (reviewLoop ns kind i ps obj).2.message =
          String.intercalate ","
            ((p.admitOp { obj with ns := ns }).map violationReason) ∧
        (p.admitOp { obj with ns := ns }).length > 0 ∧
        computeSkipme p.filterOn.ignoreOnFailure
          (p.admitOp { obj with ns := ns }) = false := by
  intro ps
  induction ps with
  | nil => intro i obj h; simp [reviewLoop_nil] at h
  | cons p rest ih =>
    intro i obj h
    by_cases hk : p.filterOn.kind = kind
    · cases hn : contained ns p.filterOn.ignoreNamespaces with
      | true =>
        rw [reviewLoop_cons_ignored ns kind i p rest obj hk hn] at h ⊢
        obtain ⟨k, q, hq, hmem, hmsg, hxs⟩ := ih (i + 1) obj h
        refine ⟨k + 1, q, by simpa using hq, ?_, hmsg, hxs⟩
        have harith : i + 1 + k = i + (k + 1) := by omega
        rw [← harith]
        exact hmem
      | false =>
        cases he : p.admitOp { obj with ns := ns } with
        | nil =>
          rw [reviewLoop_cons_accept ns kind i p rest obj hk hn he] at h ⊢
          obtain ⟨k, q, hq, hmem, hmsg, hxs⟩ := ih (i + 1) { obj with ns := ns } h
          refine ⟨k + 1, q, by simpa using hq, ?_, hmsg, hxs⟩
          have harith : i + 1 + k = i + (k + 1) := by omega
          rw [← harith]
          exact List.mem_append_right _ hmem
        | cons e es =>
          have hlen : (p.admitOp { obj with ns := ns }).length > 0 := by
            simp [he]
          cases hs : computeSkipme p.filterOn.ignoreOnFailure
              (p.admitOp { obj with ns := ns }) with
          | true =>
            rw [reviewLoop_cons_skip ns kind i p rest obj hk hn hlen hs] at h ⊢
            obtain ⟨k, q, hq, hmem, hmsg, hxs⟩ :=
              ih (i + 1) { obj with ns := ns } h
            refine ⟨k + 1, q, by simpa using hq, ?_, hmsg, hxs⟩
            have harith : i + 1 + k = i + (k + 1) := by omega
            rw [← harith]
            exact List.mem_append_right _ hmem
          | false =>
            rw [reviewLoop_cons_deny ns kind i p rest obj hk hn hlen hs] at h ⊢
            exact ⟨0, p, by simp, by simp, rfl, hlen, hs⟩
    · rw [reviewLoop_cons_mismatch ns kind i p rest obj hk] at h ⊢
      obtain ⟨k, q, hq, hmem, hmsg, hxs⟩ := ih (i + 1) obj h
      refine ⟨k + 1, q, by simpa using hq, ?_, hmsg, hxs⟩
      have harith : i + 1 + k = i + (k + 1) := by omega
      rw [← harith]
      exact hmem

/-- Forcing the namespace twice is the same as forcing it once. -/
theorem passes_update (ns kind x : String) (obj : KubeObject) (q : Provider) :
    passes ns kind { obj with ns := x } q = passes ns kind obj q := rfl

/-- If every provider of a prefix passes (fails a filter, accepts, or is
skipped), the loop over `pre ++ rest` is the loop over `rest` starting at
the index after the prefix, preceded by trace events whose `Admit`
invocations all index into the prefix. -/
theorem reviewLoop_pass_prefix (ns kind : String) :
    ∀ (pre : List Provider) (rest : List Provider) (i : Nat) (obj : KubeObject),
      (∀ q ∈ pre, passes ns kind obj q = true) →
      ∃ evs obj2,
        reviewLoop ns kind i (pre ++ rest) obj =
          (evs ++ (reviewLoop ns kind (i + pre.length) rest obj2).1,
           (reviewLoop ns kind (i + pre.length) rest obj2).2) ∧
        (∀ j n o, TraceEvent.admitCall j n o ∈ evs → j < i + pre.length) ∧
        ({ obj2 with ns := ns } : KubeObject) = { obj with ns := ns } := by
  intro pre
  induction pre with
  | nil =>
    intro rest i obj _
    exact ⟨[], obj, by simp, by simp, rfl⟩
  | cons p pre ih =>
    intro rest i obj hpass
    have hp : passes ns kind obj p = true := hpass p (by simp)
    have hpre : ∀ q ∈ pre, passes ns kind obj q = true := by
      intro q hq; exact hpass q (by simp [hq])
    by_cases hk : p.filterOn.kind = kind
    · cases hn : contained ns p.filterOn.ignoreNamespaces with
      | true =>
        rw [List.cons_append, reviewLoop_cons_ignored ns kind i p _ obj hk hn]
        obtain ⟨evs, obj2, heq, hidx, hns⟩ := ih rest (i + 1) obj hpre
        have harith : i + 1 + pre.length = i + (p :: pre).length := by
          simp; omega
        rw [harith] at heq hidx
        exact ⟨evs, obj2, heq,
          fun j n o hmem => lt_of_lt_of_le (hidx j n o hmem) (by simp),
          hns⟩
      | false =>
        cases he : p.admitOp { obj with ns := ns } with
        | nil =>
          rw [List.cons_append, reviewLoop_cons_accept ns kind i p _ obj hk hn he]
          have hpre2 : ∀ q ∈ pre, passes ns kind { obj with ns := ns } q = true := by
            intro q hq; rw [passes_update]; exact hpre q hq
          obtain ⟨evs, obj2, heq, hidx, hns⟩ :=
            ih rest (i + 1) { obj with ns := ns } hpre2
          have harith : i + 1 + pre.length = i + (p :: pre).length := by
            simp; omega
          rw [harith] at heq hidx
          refine ⟨[TraceEvent.admitCall i p.name { obj with ns := ns },
              TraceEvent.latencyObserve p.name,
              TraceEvent.actionTouch p.name "accept"] ++ evs, obj2, ?_, ?_, hns⟩
          · rw [heq]; simp
          · intro j n o hmem
            simp only [List.cons_append, List.nil_append, List.mem_cons] at hmem
            rcases hmem with hmem | hmem | hmem | hmem
            · obtain ⟨hj, _, _⟩ := TraceEvent.admitCall.inj hmem
              simp only [List.length_cons]
              omega
            · exact absurd hmem (by simp)
            · exact absurd hmem (by simp)
            · exact hidx j n o hmem
        | cons e es =>
          have hlen : (p.admitOp { obj with ns := ns }).length > 0 := by
            simp [he]
          cases hsk : computeSkipme p.filterOn.ignoreOnFailure
              (p.admitOp { obj with ns := ns }) with
          | false =>
            exfalso
            rw [he] at hsk
            simp [passes, hk, hn, he, hsk] at hp
          | true =>
          rw [List.cons_append,
            reviewLoop_cons_skip ns kind i p _ obj hk hn hlen hsk]
          have hpre2 : ∀ q ∈ pre, passes ns kind { obj with ns := ns } q = true := by
            intro q hq; rw [passes_update]; exact hpre q hq
          obtain ⟨evs, obj2, heq, hidx, hns⟩ :=
            ih rest (i + 1) { obj with ns := ns } hpre2
          have harith : i + 1 + pre.length = i + (p :: pre).length := by
            simp; omega
          rw [harith] at heq hidx
          refine ⟨[TraceEvent.admitCall i p.name { obj with ns := ns },
              TraceEvent.latencyObserve p.name,
              TraceEvent.actionInc p.name "deny"] ++ evs, obj2, ?_, ?_, hns⟩
          · rw [heq]; simp
          · intro j n o hmem
            simp only [List.cons_append, List.nil_append, List.mem_cons] at hmem
            rcases hmem with hmem | hmem | hmem | hmem
            · obtain ⟨hj, _, _⟩ := TraceEvent.admitCall.inj hmem
              simp only [List.length_cons]
              omega
            · exact absurd hmem (by simp)
            · exact absurd hmem (by simp)
            · exact hidx j n o hmem
    · rw [List.cons_append, reviewLoop_cons_mismatch ns kind i p _ obj hk]
      obtain ⟨evs, obj2, heq, hidx, hns⟩ := ih rest (i + 1) obj hpre
      have harith : i + 1 + pre.length = i + (p :: pre).length := by
        simp; omega
      rw [harith] at heq hidx
      exact ⟨evs, obj2, heq, hidx, hns⟩

theorem computeSkipme_foldl (iof : Bool) (errs : List FieldError) :
    ∀ acc : Bool,
      errs.foldl
          (fun skipme x => skipme || (x.type == ErrorType.internal && iof))
          acc =
        (acc || (errs.any (fun x => x.type == ErrorType.internal) && iof)) := by
  induction errs with
  | nil => intro acc; simp
  | cons e es ih =>
    intro acc
    simp only [List.foldl_cons, List.any_cons, ih]
    cases acc <;> cases he : (e.type == ErrorType.internal) <;> cases iof <;> simp

/-- The `skipme` flag is raised exactly when the filter has `IgnoreOnFailure`
and **at least one** violation is of type `Internal`. -/
theorem computeSkipme_eq_any (iof : Bool) (errs : List FieldError) :
    computeSkipme iof errs =
      (errs.any (fun x => x.type == ErrorType.internal) && iof) := by
  rw [computeSkipme, computeSkipme_foldl]
  simp

theorem splitOnChar_ne_nil (sep : Char) (s : List Char) :
    splitOnChar sep s ≠ [] := by
  induction s with
  | nil => simp [splitOnChar]
  | cons c rest ih =>
    cases hsplit : splitOnChar sep rest with
    | nil => exact absurd hsplit ih
    | cons g gs =>
      by_cases hc : c = sep <;> simp [splitOnChar, hsplit, hc]

/-- Splitting on a separator yields one more field than the number of
separator occurrences. -/
theorem length_splitOnChar (sep : Char) (s : List Char) :
    (splitOnChar sep s).length = s.count sep + 1 := by
  induction s with
  | nil => simp [splitOnChar]
  | cons c rest ih =>
    cases hsplit : splitOnChar sep rest with
    | nil => exact absurd hsplit (splitOnChar_ne_nil sep rest)
    | cons g gs =>
      rw [hsplit] at ih
      by_cases hc : c = sep
      · simp only [splitOnChar, hsplit, if_pos hc, List.length_cons,
          List.count_cons, hc]
        simp only [List.length_cons] at ih
        simp [ih]
      · simp only [splitOnChar, hsplit, if_neg hc, List.length_cons,
          List.count_cons]
        simp only [List.length_cons] at ih
        have hcs : ¬(c == sep) = true := by simp [hc]
        simp [hcs, ih]

/-- A string without the separator is a single field. -/
theorem splitOnChar_of_count_zero (sep : Char) (s : List Char)
    (h : s.count sep = 0) : splitOnChar sep s = [s] := by
  induction s with
  | nil => simp [splitOnChar]
  | cons c rest ih =>
    rw [List.count_cons] at h
    have hc : ¬c = sep := by
      intro hcc
      simp [hcc] at h
    have hrest : rest.count sep = 0 := by
      by_cases hcs : (c == sep) = true
      · exact absurd (by simpa using hcs) hc
      · simp [hcs] at h
        omega
    rw [splitOnChar, ih hrest]
    simp [hc]

theorem handleAdmissionReview_ok (providers : List Provider)
    (review : AdmissionReview) (obj : KubeObject)
    (hdec : getResourceForReview review.request.kind review = Except.ok obj) :
    handleAdmissionReview providers review =
      ((reviewLoop review.request.ns review.request.kind 0 providers obj).1,
       Except.ok (reviewLoop review.request.ns review.request.kind 0 providers obj).2) := by
  simp [handleAdmissionReview, hdec]

theorem handleAdmissionReview_error (providers : List Provider)
    (review : AdmissionReview) (e : ReviewError)
    (hdec : getResourceForReview review.request.kind review = Except.error e) :
    handleAdmissionReview providers review = ([], Except.error e) := by
  simp [handleAdmissionReview, hdec]

/-! ### Claims -/

/-- C5: for every review and every authorizer whose `Admit` is invoked, the
object passed to `Admit` has its namespace equal to
`review.Request.Namespace`, regardless of the namespace carried in the
encoded bytes of `review.Object`. -/
theorem admit_sees_review_namespace (providers : List Provider)
    (review : AdmissionReview) (i : Nat) (n : String) (o : KubeObject)
    (h : TraceEvent.admitCall i n o ∈ (handleAdmissionReview providers review).1) :
    o.ns = review.request.ns := by
  cases hdec : getResourceForReview review.request.kind review with
  | error e =>
    rw [handleAdmissionReview_error providers review e hdec] at h
    simp at h
  | ok obj =>
    rw [handleAdmissionReview_ok providers review obj hdec] at h
    obtain ⟨k, p, _, _, _, _, _, ho⟩ :=
      reviewLoop_admitCall_characterise review.request.ns review.request.kind
        providers 0 obj i n o h
    rw [ho]

/-- Witness for C5: in a concrete run the invoked authorizer receives the
object with namespace `default` (the review namespace), not `embedded`
(the namespace in the encoded bytes). -/
theorem admit_sees_review_namespace_witness :
    TraceEvent.admitCall 0 "securitycontext"
        { name := "app", generateName := "app-", ns := "default" } ∈
      (handleAdmissionReview [pEmpty] sampleReview).1 ∧
    ({ name := "app", generateName := "app-", ns := "default" } : KubeObject).ns =
      sampleReview.request.ns :=
  ⟨by decide,
   admit_sees_review_namespace [pEmpty] sampleReview 0 "securitycontext"
     { name := "app", generateName := "app-", ns := "default" } (by decide)⟩

/-- C6: for every review and registered authorizer, `Admit` is never
invoked when the authorizer's filter kind differs from the review kind, and
never invoked when the review namespace is contained in the authorizer's
`IgnoreNamespaces`. -/
theorem filter_kind_and_namespace_exclusion (providers : List Provider)
    (review : AdmissionReview) (i : Nat) (p : Provider)
    (hp : providers[i]? = some p)
    (h : p.filterOn.kind ≠ review.request.kind ∨
         contained review.request.ns p.filterOn.ignoreNamespaces = true) :
    ∀ n o, TraceEvent.admitCall i n o ∉ (handleAdmissionReview providers review).1 := by
  intro n o hmem
  cases hdec : getResourceForReview review.request.kind review with
  | error e =>
    rw [handleAdmissionReview_error providers review e hdec] at hmem
    simp at hmem
  | ok obj =>
    rw [handleAdmissionReview_ok providers review obj hdec] at hmem
    obtain ⟨k, q, hq, hik, _, hkind, hns, _⟩ :=
      reviewLoop_admitCall_characterise review.request.ns review.request.kind
        providers 0 obj i n o hmem
    have hki : k = i := by omega
    subst hki
    rw [hp] at hq
    have hqp : q = p := (Option.some.inj hq).symm
    subst hqp
    rcases h with h | h
    · exact h hkind
    · rw [hns] at h
      exact Bool.false_ne_true h

/-- Witness for C6: a `Service`-kind authorizer is never invoked on a pod
review, and an authorizer ignoring `default` is never invoked on a review
in namespace `default`. -/
theorem filter_kind_and_namespace_exclusion_witness :
    ([pService][0]? = some pService) ∧
    pService.filterOn.kind ≠ sampleReview.request.kind ∧
    (TraceEvent.admitCall 0 "services" objRaw ∉
      (handleAdmissionReview [pService] sampleReview).1) ∧
    ([pIgnoringDefault][0]? = some pIgnoringDefault) ∧
    contained sampleReview.request.ns pIgnoringDefault.filterOn.ignoreNamespaces = true ∧
    (TraceEvent.admitCall 0 "tolerations" objRaw ∉
      (handleAdmissionReview [pIgnoringDefault] sampleReview).1) :=
  ⟨rfl, by decide,
   filter_kind_and_namespace_exclusion [pService] sampleReview 0 pService rfl
     (Or.inl (by decide)) "services" objRaw,
   rfl, by decide,
   filter_kind_and_namespace_exclusion [pIgnoringDefault] sampleReview 0
     pIgnoringDefault rfl (Or.inr (by decide)) "tolerations" objRaw⟩

/-- C8 (code bug): the source's accept path executes
`admissionAuthorizerActionMetric.WithLabelValues(provider.Name(), actionAccepted)`
without calling `Inc()`, so when an invoked authorizer returns an empty
violation list the accept-labelled counter is **not** incremented: at this
concrete review the trace carries the label lookup and no increment
event. -/
theorem accept_counter_not_incremented :
    pEmpty.admitOp { objRaw with ns := "default" } = [] ∧
    TraceEvent.actionTouch "securitycontext" "accept" ∈
      (handleAdmissionReview [pEmpty] sampleReview).1 ∧
    TraceEvent.actionInc "securitycontext" "accept" ∉
      (handleAdmissionReview [pEmpty] sampleReview).1 :=
  ⟨rfl, by decide, by decide⟩

/-- C9: constructing the admission server with an empty list of authorizers
always fails with "no authorizers defined" — for every configuration and
every outcome of the HTTP-server constructor — and produces no server
instance. -/
theorem new_requires_authorizers (config : Config)
    (newHTTPServer : String → String → String → Except String HTTPServer) :
    serverNew config [] newHTTPServer = Except.error "no authorizers defined" := by
  simp [serverNew]

/-- C1 counterexample: an authorizer with `IgnoreOnFailure` returning a
**mixed** violation list — one `Internal`, one genuine `Forbidden`
violation — is skipped and the request is accepted, although not every
violation is `Internal`; the claim "in every other case of a non-empty list
the request is denied" is therefore false on the code. -/
theorem mixed_violations_skipped_example :
    pMixed.filterOn.ignoreOnFailure = true ∧
    pMixed.admitOp { objRaw with ns := "default" } = [errInternal, errPriv] ∧
    ¬(∀ v ∈ pMixed.admitOp { objRaw with ns := "default" },
        v.type = ErrorType.internal) ∧
    (handleAdmissionReview [pMixed] sampleReview).2 =
      Except.ok
        { allowed := true, object := { objRaw with ns := "default" },
          message := "" } :=
  ⟨rfl, rfl, by decide, rfl⟩

/-- C1 (amended): when an authorizer reached by the dispatch loop returns a
non-empty violation list, the engine continues as if the authorizer
accepted — the verdict is that of the remaining authorizers — exactly when
the filter's `IgnoreOnFailure` is true and **at least one** violation has
type `Internal`; in every other case of a non-empty list the request is
denied. -/
theorem internal_tolerance_characterisation (ns kind : String) (i : Nat)
    (p : Provider) (rest : List Provider) (obj : KubeObject)
    (hk : p.filterOn.kind = kind)
    (hn : contained ns p.filterOn.ignoreNamespaces = false)
    (he : p.admitOp { obj with ns := ns } ≠ []) :
    ((p.filterOn.ignoreOnFailure = true ∧
      ∃ v ∈ p.admitOp { obj with ns := ns }, v.type = ErrorType.internal) →
      (reviewLoop ns kind i (p :: rest) obj).2 =
        (reviewLoop ns kind (i + 1) rest { obj with ns := ns }).2) ∧
    (¬(p.filterOn.ignoreOnFailure = true ∧
       ∃ v ∈ p.admitOp { obj with ns := ns }, v.type = ErrorType.internal) →
      (reviewLoop ns kind i (p :: rest) obj).2.allowed = false) := by
  have hlen : (p.admitOp { obj with ns := ns }).length > 0 := by
    cases hadm : p.admitOp { obj with ns := ns } with
    | nil => exact absurd hadm he
    | cons e es => simp
  constructor
  · intro h
    obtain ⟨hiof, v, hv, hvint⟩ := h
    have hs : computeSkipme p.filterOn.ignoreOnFailure
        (p.admitOp { obj with ns := ns }) = true := by
      rw [computeSkipme_eq_any, hiof, Bool.and_true, List.any_eq_true]
      exact ⟨v, hv, by simp [hvint]⟩
    rw [reviewLoop_cons_skip ns kind i p rest obj hk hn hlen hs]
  · intro hnot
    have hs : computeSkipme p.filterOn.ignoreOnFailure
        (p.admitOp { obj with ns := ns }) = false := by
      rw [computeSkipme_eq_any]
      cases hiof : p.filterOn.ignoreOnFailure with
      | false => simp
      | true =>
        rw [Bool.and_true, List.any_eq_false]
        intro v hv
        simp only [beq_iff_eq]
        intro hvint
        exact hnot ⟨hiof, v, hv, hvint⟩
    rw [reviewLoop_cons_deny ns kind i p rest obj hk hn hlen hs]

/-- Witness for C1 (amended): a single-`Internal` violation list with
`IgnoreOnFailure` makes the loop continue with the remaining (empty) list,
so the request is accepted. -/
theorem internal_tolerance_characterisation_witness :
    pInternal.filterOn.kind = "Pod" ∧
    contained "default" pInternal.filterOn.ignoreNamespaces = false ∧
    pInternal.admitOp { objRaw with ns := "default" } ≠ [] ∧
    (pInternal.filterOn.ignoreOnFailure = true ∧
      ∃ v ∈ pInternal.admitOp { objRaw with ns := "default" },
        v.type = ErrorType.internal) ∧
    (reviewLoop "default" "Pod" 0 [pInternal] objRaw).2 =
      (reviewLoop "default" "Pod" 1 [] { objRaw with ns := "default" }).2 :=
  ⟨rfl, rfl, by decide, by decide,
   (internal_tolerance_characterisation "default" "Pod" 0 pInternal [] objRaw
      rfl rfl (by decide)).1 (by decide)⟩

/-- C2: once some authorizer — the first one not passed over by the filters
or by the empty/skipped-violation cases — returns a non-empty violation
list that is not skipped as Internal-with-IgnoreOnFailure, the dispatch
stops iterating: every `Admit` invocation of the request indexes at or
before that authorizer, and the verdict is a denial whose message is built
only from that authorizer's violations. -/
theorem first_denial_short_circuits (review : AdmissionReview)
    (pre : List Provider) (p : Provider) (post : List Provider)
    (obj : KubeObject)
    (hdec : getResourceForReview review.request.kind review = Except.ok obj)
    (hpass : ∀ q ∈ pre, passes review.request.ns review.request.kind obj q = true)
    (hk : p.filterOn.kind = review.request.kind)
    (hn : contained review.request.ns p.filterOn.ignoreNamespaces = false)
    (he : (p.admitOp { obj with ns := review.request.ns }).length > 0)
    (hs : computeSkipme p.filterOn.ignoreOnFailure
            (p.admitOp { obj with ns := review.request.ns }) = false) :
    (∀ j n o, TraceEvent.admitCall j n o ∈
        (handleAdmissionReview (pre ++ p :: post) review).1 → j ≤ pre.length) ∧
    (handleAdmissionReview (pre ++ p :: post) review).2 =
      Except.ok
        { allowed := false, object := { obj with ns := review.request.ns },
          message := String.intercalate ","
            ((p.admitOp { obj with ns := review.request.ns }).map violationReason) } := by
  rw [handleAdmissionReview_ok (pre ++ p :: post) review obj hdec]
  obtain ⟨evs, obj2, heq, hidx, hns⟩ :=
    reviewLoop_pass_prefix review.request.ns review.request.kind pre (p :: post)
      0 obj hpass
  have he2 : (p.admitOp { obj2 with ns := review.request.ns }).length > 0 := by
    rw [hns]; exact he
  have hs2 : computeSkipme p.filterOn.ignoreOnFailure
      (p.admitOp { obj2 with ns := review.request.ns }) = false := by
    rw [hns]; exact hs
  have hdeny := reviewLoop_cons_deny review.request.ns review.request.kind
    (0 + pre.length) p post obj2 hk hn he2 hs2
  rw [heq, hdeny]
  constructor
  · intro j n o hmem
    simp only [List.mem_append, List.mem_cons, List.not_mem_nil, or_false] at hmem
    rcases hmem with hmem | hmem | hmem | hmem
    · have := hidx j n o hmem
      omega
    · obtain ⟨hj, _, _⟩ := TraceEvent.admitCall.inj hmem
      omega
    · exact absurd hmem (by simp)
    · exact absurd hmem (by simp)
  · rw [hns]

/-- Witness for C2: with an accepting authorizer first, the denying
authorizer `images` short-circuits past the registered `pService`. -/
theorem first_denial_short_circuits_witness :
    getResourceForReview sampleReview.request.kind sampleReview = Except.ok objRaw ∧
    (∀ q ∈ [pEmpty],
      passes sampleReview.request.ns sampleReview.request.kind objRaw q = true) ∧
    pDeny.filterOn.kind = sampleReview.request.kind ∧
    contained sampleReview.request.ns pDeny.filterOn.ignoreNamespaces = false ∧
    (pDeny.admitOp { objRaw with ns := sampleReview.request.ns }).length > 0 ∧
    computeSkipme pDeny.filterOn.ignoreOnFailure
      (pDeny.admitOp { objRaw with ns := sampleReview.request.ns }) = false ∧
    ((∀ j n o, TraceEvent.admitCall j n o ∈
        (handleAdmissionReview ([pEmpty] ++ pDeny :: [pService]) sampleReview).1 →
        j ≤ [pEmpty].length) ∧
     (handleAdmissionReview ([pEmpty] ++ pDeny :: [pService]) sampleReview).2 =
       Except.ok
         { allowed := false,
           object := { objRaw with ns := sampleReview.request.ns },
           message := String.intercalate ","
             ((pDeny.admitOp { objRaw with ns := sampleReview.request.ns }).map
               violationReason) }) :=
  ⟨rfl, by decide, rfl, by decide, by decide, by decide,
   first_denial_short_circuits sampleReview [pEmpty] pDeny [pService] objRaw rfl
     (by decide) rfl (by decide) (by decide) (by decide)⟩

/-- C3: a review whose kind is not one of Pod, Namespace, Ingress, Service
makes evaluation return an error — no verdict, no `Admit` invocation in the
trace — and increments the error metric; a review whose object fails to
decode into the kind-specific structure gets the same treatment. -/
theorem engine_error_paths (config : Config) (providers : List Provider)
    (review : AdmissionReview) :
    (review.request.kind ≠ FilterIngresses →
     review.request.kind ≠ FilterNamespace →
     review.request.kind ≠ FilterPods →
     review.request.kind ≠ FilterServices →
      admitReview config providers review =
        ([TraceEvent.errorInc], Except.error ReviewError.notSupported)) ∧
    ((review.request.kind = FilterIngresses ∨
      review.request.kind = FilterNamespace ∨
      review.request.kind = FilterPods ∨
      review.request.kind = FilterServices) →
     review.request.object.decode review.request.kind = none →
      admitReview config providers review =
        ([TraceEvent.errorInc], Except.error ReviewError.decodeFailure)) := by
  constructor
  · intro h1 h2 h3 h4
    have hdec : getResourceForReview review.request.kind review =
        Except.error ReviewError.notSupported := by
      rw [getResourceForReview, if_neg]
      push_neg
      exact ⟨h1, h2, h3, h4⟩
    have hh := handleAdmissionReview_error providers review
      ReviewError.notSupported hdec
    simp [admitReview, hh]
  · intro hkind hdecode
    have hdec : getResourceForReview review.request.kind review =
        Except.error ReviewError.decodeFailure := by
      rw [getResourceForReview, if_pos, hdecode]
      rcases hkind with h | h | h | h <;> simp [h]
    have hh := handleAdmissionReview_error providers review
      ReviewError.decodeFailure hdec
    simp [admitReview, hh]

/-- Witness for C3: a `DaemonSet` review errors with `notSupported`, a pod
review with an undecodable payload errors with `decodeFailure`; both traces
consist of the error-metric increment alone. -/
theorem engine_error_paths_witness :
    (unsupportedReview.request.kind ≠ FilterIngresses ∧
     unsupportedReview.request.kind ≠ FilterNamespace ∧
     unsupportedReview.request.kind ≠ FilterPods ∧
     unsupportedReview.request.kind ≠ FilterServices ∧
     admitReview sampleConfig [pDeny] unsupportedReview =
       ([TraceEvent.errorInc], Except.error ReviewError.notSupported)) ∧
    (badPayloadReview.request.kind = FilterPods ∧
     badPayloadReview.request.object.decode badPayloadReview.request.kind = none ∧
     admitReview sampleConfig [pDeny] badPayloadReview =
       ([TraceEvent.errorInc], Except.error ReviewError.decodeFailure)) :=
  ⟨⟨by decide, by decide, by decide, by decide,
    (engine_error_paths sampleConfig [pDeny] unsupportedReview).1
      (by decide) (by decide) (by decide) (by decide)⟩,
   ⟨rfl, rfl,
    (engine_error_paths sampleConfig [pDeny] badPayloadReview).2
      (Or.inr (Or.inr (Or.inl rfl))) rfl⟩⟩

/-- C4: every denied review yields `Allowed = false` with a status carrying
`Code = 403`, `Reason = Forbidden`, whose message joins
`"field=bad_value : detail"` for each violation of the denying authorizer
with commas; every accepted review yields `Allowed = true` with no
status. -/
theorem response_shape (config : Config) (providers : List Provider)
    (review : AdmissionReview) (evs : List TraceEvent)
    (resp : AdmissionResponse)
    (h : admitReview config providers review = (evs, Except.ok resp)) :
    (resp.allowed = false →
      ∃ obj st i p, resp.result = some st ∧ st.code = 403 ∧
        st.reason = "Forbidden" ∧ st.status = "Failure" ∧
        getResourceForReview review.request.kind review = Except.ok obj ∧
        providers[i]? = some p ∧
        TraceEvent.admitCall i p.name { obj with ns := review.request.ns } ∈ evs ∧
        st.message = String.intercalate ","
          ((p.admitOp { obj with ns := review.request.ns }).map violationReason)) ∧
    (resp.allowed = true → resp.result = none) := by
  cases hdec : getResourceForReview review.request.kind review with
  | error e =>
    have hh := handleAdmissionReview_error providers review e hdec
    simp [admitReview, hh] at h
  | ok obj =>
    have hh := handleAdmissionReview_ok providers review obj hdec
    simp only [admitReview, hh] at h
    by_cases hall :
        (reviewLoop review.request.ns review.request.kind 0 providers obj).2.allowed
          = false
    · rw [if_pos hall] at h
      rw [Prod.mk.injEq] at h
      obtain ⟨hevs, hresp⟩ := h
      have hre := Except.ok.inj hresp
      subst hre
      constructor
      · intro _
        obtain ⟨k, p, hk, hmem, hmsg, _, _⟩ :=
          reviewLoop_denied_provenance review.request.ns review.request.kind
            providers 0 obj hall
        rw [Nat.zero_add] at hmem
        refine ⟨obj,
          { code := 403,
            message :=
              (reviewLoop review.request.ns review.request.kind 0 providers obj).2.message,
            reason := "Forbidden", status := "Failure" },
          k, p, rfl, rfl, rfl, rfl, rfl, hk, ?_, hmsg⟩
        rw [← hevs]
        cases henv : config.enableEvents <;> simp [henv, hmem]
      · intro htrue
        simp at htrue
    · rw [if_neg hall] at h
      rw [Prod.mk.injEq] at h
      obtain ⟨hevs, hresp⟩ := h
      have hre := Except.ok.inj hresp
      subst hre
      constructor
      · intro hfalse
        simp at hfalse
      · intro _
        rfl

/-- Witness for C4: a concrete denied review produces the 403/Forbidden
response with the joined violation message, as characterised by the shape
theorem. -/
theorem response_shape_witness :
    admitReview sampleConfig [pDeny] sampleReview =
      ([TraceEvent.admitCall 0 "images"
          { name := "app", generateName := "app-", ns := "default" },
        TraceEvent.latencyObserve "images",
        TraceEvent.actionInc "images" "deny",
        TraceEvent.totalInc "deny"],
       Except.ok
         { allowed := false,
           result := some
             { code := 403,
               message := "spec.containers[0].securityContext.privileged=true : privileged containers denied",
               reason := "Forbidden", status := "Failure" } }) ∧
    ((({ allowed := false,
         result := some
           { code := 403,
             message := "spec.containers[0].securityContext.privileged=true : privileged containers denied",
             reason := "Forbidden", status := "Failure" } } : AdmissionResponse).allowed
        = false →
      ∃ obj st i p,
        ({ allowed := false,
           result := some
             { code := 403,
               message := "spec.containers[0].securityContext.privileged=true : privileged containers denied",
               reason := "Forbidden", status := "Failure" } } : AdmissionResponse).result
            = some st ∧
        st.code = 403 ∧ st.reason = "Forbidden" ∧ st.status = "Failure" ∧
        getResourceForReview sampleReview.request.kind sampleReview = Except.ok obj ∧
        [pDeny][i]? = some p ∧
        TraceEvent.admitCall i p.name { obj with ns := sampleReview.request.ns } ∈
          [TraceEvent.admitCall 0 "images"
             { name := "app", generateName := "app-", ns := "default" },
           TraceEvent.latencyObserve "images",
           TraceEvent.actionInc "images" "deny",
           TraceEvent.totalInc "deny"] ∧
        st.message = String.intercalate ","
          ((p.admitOp { obj with ns := sampleReview.request.ns }).map violationReason)) ∧
     (({ allowed := false,
         result := some
           { code := 403,
             message := "spec.containers[0].securityContext.privileged=true : privileged containers denied",
             reason := "Forbidden", status := "Failure" } } : AdmissionResponse).allowed
        = true →
      ({ allowed := false,
         result := some
           { code := 403,
             message := "spec.containers[0].securityContext.privileged=true : privileged containers denied",
             reason := "Forbidden", status := "Failure" } } : AdmissionResponse).result
          = none)) :=
  ⟨rfl, response_shape sampleConfig [pDeny] sampleReview _ _ rfl⟩

/-- C7 counterexample: with a denying authorizer registered first, a later
authorizer whose filter kind equals the review kind and whose
`IgnoreNamespaces` does not contain the review namespace is never invoked —
its invocation count is 0, not "exactly once". -/
theorem matching_authorizer_not_invoked_example :
    ([pDeny, pEmpty][1]? = some pEmpty) ∧
    pEmpty.filterOn.kind = sampleReview.request.kind ∧
    contained sampleReview.request.ns pEmpty.filterOn.ignoreNamespaces = false ∧
    admitCount 1 (handleAdmissionReview [pDeny, pEmpty] sampleReview).1 = 0 :=
  ⟨rfl, rfl, by decide, by decide⟩

/-- C7 (amended): every registered authorizer has its `Admit` invoked at
most once per request; an authorizer whose filter kind equals the review
kind and whose `IgnoreNamespaces` does not contain the review namespace is
invoked exactly once provided every authorizer registered before it passes
(fails the kind or namespace filter, returns no violations, or has its
violations skipped as Internal-with-IgnoreOnFailure). -/
theorem matching_authorizer_invocation_count (providers : List Provider)
    (review : AdmissionReview) (obj : KubeObject) (k : Nat) (p : Provider)
    (hdec : getResourceForReview review.request.kind review = Except.ok obj)
    (hp : providers[k]? = some p)
    (hk : p.filterOn.kind = review.request.kind)
    (hn : contained review.request.ns p.filterOn.ignoreNamespaces = false)
    (hpass : ∀ j q, j < k → providers[j]? = some q →
       passes review.request.ns review.request.kind obj q = true) :
    admitCount k (handleAdmissionReview providers review).1 = 1 ∧
    (∀ j, admitCount j (handleAdmissionReview providers review).1 ≤ 1) := by
  rw [handleAdmissionReview_ok providers review obj hdec]
  have hklen : k < providers.length := by
    rw [List.getElem?_eq_some] at hp
    exact hp.1
  have hpk : providers[k] = p := by
    rw [List.getElem?_eq_getElem hklen] at hp
    exact Option.some.inj hp
  have hsplit : providers.take k ++ p :: providers.drop (k + 1) = providers := by
    calc providers.take k ++ p :: providers.drop (k + 1)
        = providers.take k ++ providers.drop k := by
          rw [List.drop_eq_getElem_cons hklen, hpk]
      _ = providers := List.take_append_drop k providers
  have htlen : (providers.take k).length = k := by
    rw [List.length_take]; omega
  have hpassPre : ∀ q ∈ providers.take k,
      passes review.request.ns review.request.kind obj q = true := by
    intro q hq
    rw [List.mem_take_iff_getElem] at hq
    obtain ⟨i, hi, hiq⟩ := hq
    have hil : i < providers.length := by omega
    exact hpass i q (by omega) (by rw [List.getElem?_eq_getElem hil, hiq])
  obtain ⟨evs, obj2, heq, hidx, hns⟩ :=
    reviewLoop_pass_prefix review.request.ns review.request.kind
      (providers.take k) (p :: providers.drop (k + 1)) 0 obj hpassPre
  rw [hsplit] at heq
  rw [htlen, Nat.zero_add] at heq hidx
  constructor
  · rw [heq, admitCount_append]
    have hz : admitCount k evs = 0 := by
      apply admitCount_eq_zero_of_forall
      intro n o hmem
      have hcon := hidx k n o hmem
      omega
    rw [hz, Nat.zero_add]
    cases he : p.admitOp { obj2 with ns := review.request.ns } with
    | nil =>
      rw [reviewLoop_cons_accept review.request.ns review.request.kind k p
          (providers.drop (k + 1)) obj2 hk hn he, admitCount_append]
      rw [admitCount_eq_zero_of_lt review.request.ns review.request.kind
        (providers.drop (k + 1)) (k + 1) k _ (by omega)]
      simp [admitCount, isAdmitCallIdx]
    | cons e es =>
      have hlen2 : (p.admitOp { obj2 with ns := review.request.ns }).length > 0 := by
        simp [he]
      cases hs : computeSkipme p.filterOn.ignoreOnFailure
          (p.admitOp { obj2 with ns := review.request.ns }) with
      | true =>
        rw [reviewLoop_cons_skip review.request.ns review.request.kind k p
            (providers.drop (k + 1)) obj2 hk hn hlen2 hs, admitCount_append]
        rw [admitCount_eq_zero_of_lt review.request.ns review.request.kind
          (providers.drop (k + 1)) (k + 1) k _ (by omega)]
        simp [admitCount, isAdmitCallIdx]
      | false =>
        rw [reviewLoop_cons_deny review.request.ns review.request.kind k p
            (providers.drop (k + 1)) obj2 hk hn hlen2 hs]
        simp [admitCount, isAdmitCallIdx]
  · intro j
    exact reviewLoop_admitCount_le_one review.request.ns review.request.kind
      providers 0 obj j

/-- Witness for C7 (amended): with an accepting authorizer registered
first, the matching authorizer at index 1 is invoked exactly once. -/
theorem matching_authorizer_invocation_count_witness :
    getResourceForReview sampleReview.request.kind sampleReview = Except.ok objRaw ∧
    ([pEmpty, pDeny][1]? = some pDeny) ∧
    pDeny.filterOn.kind = sampleReview.request.kind ∧
    contained sampleReview.request.ns pDeny.filterOn.ignoreNamespaces = false ∧
    (admitCount 1 (handleAdmissionReview [pEmpty, pDeny] sampleReview).1 = 1 ∧
     (∀ j, admitCount j (handleAdmissionReview [pEmpty, pDeny] sampleReview).1 ≤ 1)) :=
  ⟨rfl, rfl, rfl, by decide,
   matching_authorizer_invocation_count [pEmpty, pDeny] sampleReview objRaw 1
     pDeny rfl rfl rfl (by decide)
     (by
       intro j q hj hq
       have hj0 : j = 0 := by omega
       subst hj0
       simp only [List.getElem?_cons_zero] at hq
       have hq2 : pEmpty = q := Option.some.inj hq
       subst hq2
       decide)⟩

/-- C10: the authorizer factory errors for every name outside the eight
in-tree module names; the CLI authorizer-string parser rejects any string
containing two or more `=` separators, and a bare name with no `=`
constructs that authorizer with the empty configuration path. -/
theorem authorizer_factory_and_cli_parsing
    (newFromFile : String → String → Except String Provider)
    (name path cfg1 cfg2 : String) :
    (name ∉ moduleNames →
      newAuthorizer newFromFile name path = Except.error "unsupported authorizer") ∧
    (2 ≤ cfg1.data.count '=' →
      configureAuthorizer newFromFile cfg1 =
        Except.error "invalid authorizer config, should be name:config_path") ∧
    (cfg2.data.count '=' = 0 →
      configureAuthorizer newFromFile cfg2 =
        authorizeNew newFromFile cfg2 "" true) := by
  refine ⟨?_, ?_, ?_⟩
  · intro hmem
    simp only [moduleNames, List.mem_cons, List.not_mem_nil, or_false] at hmem
    push_neg at hmem
    obtain ⟨h1, h2, h3, h4, h5, h6, h7, h8⟩ := hmem
    simp [newAuthorizer, h1, h2, h3, h4, h5, h6, h7, h8]
  · intro hcount
    have hlen : (splitOnChar '=' cfg1.data).length > 2 := by
      rw [length_splitOnChar]; omega
    simp only [configureAuthorizer]
    rw [if_pos hlen]
  · intro hcount
    have hsp : splitOnChar '=' cfg2.data = [cfg2.data] :=
      splitOnChar_of_count_zero '=' cfg2.data hcount
    simp [configureAuthorizer, hsp]

/-- Witness for C10: the unknown name `foobar` is rejected, a flag value
with two separators is rejected, and the bare `images` flag builds the
authorizer with an empty path. -/
theorem authorizer_factory_and_cli_parsing_witness :
    ("foobar" ∉ moduleNames ∧
      newAuthorizer nfDummy "foobar" "cfg.yaml" =
        Except.error "unsupported authorizer") ∧
    (2 ≤ ("images=a.yaml=b.yaml").data.count '=' ∧
      configureAuthorizer nfDummy "images=a.yaml=b.yaml" =
        Except.error "invalid authorizer config, should be name:config_path") ∧
    (("images").data.count '=' = 0 ∧
      configureAuthorizer nfDummy "images" =
        authorizeNew nfDummy "images" "" true) :=
  ⟨⟨by decide,
    (authorizer_factory_and_cli_parsing nfDummy "foobar" "cfg.yaml"
       "images=a.yaml=b.yaml" "images").1 (by decide)⟩,
   ⟨by decide,
    (authorizer_factory_and_cli_parsing nfDummy "foobar" "cfg.yaml"
       "images=a.yaml=b.yaml" "images").2.1 (by decide)⟩,
   ⟨by decide,
    (authorizer_factory_and_cli_parsing nfDummy "foobar" "cfg.yaml"
       "images=a.yaml=b.yaml" "images").2.2 (by decide)⟩⟩

end PolicyAdmission
